import Mathlib

/-!
Verification of `mtfc-generator/auto_iteration_system.py`.

This file gives a shallow embedding of the score-extraction function
`extract_scores` and of the iteration loop in `main`, and proves the
specification's claims about them.

Strings are modelled as `List Char`.  Python floats are idealised as `Rat`
(the specification allows floating tolerance; all score and weight values
involved are exactly representable).  Each concrete regular expression used
by the source is hand-compiled into a deterministic matcher; the compilation
is noted next to each definition.  Python's `re.search` scans candidate start
positions left to right and at each position tries the alternatives of the
pattern in order, which the matchers below reproduce.
-/

namespace Mtfc

/-- Python `\s` (ASCII range): space, tab, newline, carriage return,
vertical tab, form feed. -/
def isWs (c : Char) : Bool :=
  decide (c = ' ' ∨ c = '\t' ∨ c = '\n' ∨ c = '\r' ∨ c = '\x0b' ∨ c = '\x0c')

/-- Python `\d` (ASCII digits). -/
def isDigit (c : Char) : Bool :=
  decide ('0' ≤ c ∧ c ≤ '9')

/-- ASCII lower-casing, as Python's case-insensitive matching uses on the
ASCII texts involved. -/
def lowerChar (c : Char) : Char :=
  if 'A' ≤ c ∧ c ≤ 'Z' then Char.ofNat (c.toNat + 32) else c

/-- Case-insensitive character comparison (re.IGNORECASE). -/
def lowerEq (a b : Char) : Bool :=
  lowerChar a == lowerChar b

/-- Shorthand for string literals as character lists. -/
def strL (s : String) : List Char :=
  s.toList

/-- Match a literal (after `re.escape`) case-insensitively at the start of
the text; return the remainder on success. -/
def matchLit : List Char → List Char → Option (List Char)
  | [], s => some s
  | _ :: _, [] => none
  | k :: ks, c :: cs => if lowerEq k c then matchLit ks cs else none

/-- Numeric value of an ASCII digit. -/
def digitVal (c : Char) : Nat :=
  c.toNat - 48

/-- Greedy match of `\d+(?:\.\d+)?` at the start of the text, returning the
value of the captured group as a rational (Python applies `float` to the
group) and the remainder.  For the patterns of the source, where the group
is followed by `\s*`, `:?`, end of pattern or a key starting with a letter,
greedy matching without backtracking is equivalent to `re` semantics. -/
def parseNum (s : List Char) : Option (Rat × List Char) :=
  match s.takeWhile isDigit with
  | [] => none
  | ds =>
      let rest := s.drop ds.length
      let intPart : Nat := ds.foldl (fun a c => 10 * a + digitVal c) 0
      match rest with
      | c :: r2 =>
          if c = '.' then
            match r2.takeWhile isDigit with
            | [] => some ((intPart : Rat), rest)
            | fs =>
                let fracPart : Nat := fs.foldl (fun a c => 10 * a + digitVal c) 0
                some ((intPart : Rat) + mkRat fracPart ((10 : Nat) ^ fs.length),
                      r2.drop fs.length)
          else some ((intPart : Rat), rest)
      | [] => some ((intPart : Rat), rest)

/-- Model of `re.search`: try `test` at every start position, left to right. -/
def searchAt (test : List Char → Option Rat) : List Char → Option Rat
  | [] => test []
  | c :: rest =>
      match test (c :: rest) with
      | some v => some v
      | none => searchAt test rest

/-- Tail of pattern `\s*:?\s*(\d+(?:\.\d+)?)`: skip whitespace, an optional
colon, whitespace, then the number.  The decomposition into the two
whitespace runs and the optional colon is unique before a digit, so greedy
scanning is faithful. -/
def sepColonNum (s : List Char) : Option Rat :=
  let r1 := s.dropWhile isWs
  let r2 := match r1 with
    | ':' :: r => r.dropWhile isWs
    | _ => r1
  (parseNum r2).map (·.1)

/-- Tail of patterns `\s*-\s*(...)` and `\s*=\s*(...)` with a mandatory
separator character. -/
def sepCharNum (sep : Char) (s : List Char) : Option Rat :=
  match s.dropWhile isWs with
  | c :: r => if c = sep then (parseNum (r.dropWhile isWs)).map (·.1) else none
  | [] => none

/-- Search for `re.search(rf"{key}\s*:?\s*(\d+(?:\.\d+)?)", text)`. -/
def searchP1 (key : List Char) (text : List Char) : Option Rat :=
  searchAt (fun s => (matchLit key s).bind sepColonNum) text

/-- Search for `re.search(rf"{key}\s*-\s*(\d+(?:\.\d+)?)", text)`. -/
def searchP2 (key : List Char) (text : List Char) : Option Rat :=
  searchAt (fun s => (matchLit key s).bind (sepCharNum '-')) text

/-- Search for `re.search(rf"{key}\s*=\s*(\d+(?:\.\d+)?)", text)`. -/
def searchP3 (key : List Char) (text : List Char) : Option Rat :=
  searchAt (fun s => (matchLit key s).bind (sepCharNum '=')) text

/-- One position of pattern `(\d+(?:\.\d+)?)\s*:?\s*{key}`: a number, then
whitespace, optional colon, whitespace, then the key. -/
def numThenKey (key : List Char) (s : List Char) : Option Rat :=
  (parseNum s).bind fun vr =>
    let r1 := vr.2.dropWhile isWs
    let r2 := match r1 with
      | ':' :: r => r.dropWhile isWs
      | _ => r1
    (matchLit key r2).map fun _ => vr.1

/-- Search for `re.search(rf"(\d+(?:\.\d+)?)\s*:?\s*{key}", text)`. -/
def searchP4 (key : List Char) (text : List Char) : Option Rat :=
  searchAt (numThenKey key) text

/-- Model of `key.replace(" & ", " and ")` (left to right, non-overlapping). -/
def replaceAnd : List Char → List Char
  | ' ' :: '&' :: ' ' :: rest => ' ' :: 'a' :: 'n' :: 'd' :: ' ' :: replaceAnd rest
  | c :: rest => c :: replaceAnd rest
  | [] => []

/-- Model of `key.replace(" & ", " ")` (left to right, non-overlapping). -/
def replaceDrop : List Char → List Char
  | ' ' :: '&' :: ' ' :: rest => ' ' :: replaceDrop rest
  | c :: rest => c :: replaceDrop rest
  | [] => []

/-- The four regex shapes tried for one surface-form variant of a key, in
source order. -/
def variantCombos (kv : List Char) (t : List Char) : List (Option Rat) :=
  [searchP1 kv t, searchP2 kv t, searchP3 kv t, searchP4 kv t]

/-- All variant/pattern combinations for one rubric category, in the order
the nested loops of the source try them: full key, lower-cased key,
"&"→"and", "&" dropped; four pattern shapes each. -/
def categoryCombos (key : List Char) (t : List Char) : List (Option Rat) :=
  variantCombos key t ++ variantCombos (key.map lowerChar) t ++
    variantCombos (replaceAnd key) t ++ variantCombos (replaceDrop key) t

/-- First combination whose matched number lies in [0,100]; a match outside
that range is discarded and the search continues with the remaining
combinations (the source records a score and breaks only inside the
in-range check). -/
def firstInRange : List (Option Rat) → Option Rat
  | [] => none
  | none :: rest => firstInRange rest
  | some v :: rest => if 0 ≤ v ∧ v ≤ 100 then some v else firstInRange rest

/-- Value recorded for one rubric category by the extraction loop
(`scores[key]` after the two nested loops), if any. -/
def extractCategory (body : List Char) (key : String) : Option Rat :=
  firstInRange (categoryCombos key.toList body)

/-- Alternatives of the scores-section header
`(?:SCORES?|RUBRIC SCORES?|EVALUATION)` in backtracking order (greedy `S?`
tries the longer form first). -/
def headerAlts : List (List Char) :=
  [strL "SCORES", strL "SCORE", strL "RUBRIC SCORES", strL "RUBRIC SCORE",
   strL "EVALUATION"]

/-- Consume `\s*:?\s*` greedily: maximal whitespace run, one optional colon,
maximal whitespace run.  Returns the consumed characters and the rest. -/
def sepConsume (s : List Char) : List Char × List Char :=
  let w1 := s.takeWhile isWs
  let r1 := s.drop w1.length
  match r1 with
  | ':' :: r2 =>
      let w2 := r2.takeWhile isWs
      (w1 ++ ':' :: w2, r2.drop w2.length)
  | _ => (w1, r1)

/-- Suffix strictly after the last newline of a list, if a newline occurs. -/
def afterLastNewline : List Char → Option (List Char)
  | [] => none
  | '\n' :: rest => some ((afterLastNewline rest).getD rest)
  | _ :: rest => afterLastNewline rest

/-- Match `\s*:?\s*\n` with `re` backtracking: every feasible match consumes
a prefix of the greedy `\s*:?\s*` run ending at one of its newlines, and
greedy backtracking selects the last such newline.  Returns the text after
the matched newline (body start). -/
def sepNewline (s : List Char) : Option (List Char) :=
  let cr := sepConsume s
  (afterLastNewline cr.1).map (fun tail => tail ++ cr.2)

/-- Try the header alternatives at one position: literal then `\s*:?\s*\n`;
on failure of the tail the next alternative is tried (regex backtracking
into the alternation). -/
def tryHeaderAt (s : List Char) : Option (List Char) :=
  headerAlts.findSome? fun h => (matchLit h s).bind sepNewline

/-- Leftmost position where the header part of the section regex matches;
returns the body start (text after the matched newline). -/
def findSectionStart : List Char → Option (List Char)
  | [] => none
  | c :: rest =>
      match tryHeaderAt (c :: rest) with
      | some b => some b
      | none => findSectionStart rest

/-- The terminators bounding the lazy group:
`(?:WEIGHTED TOTAL|OVERALL|TOTAL|$)`. -/
def termAt (s : List Char) : Bool :=
  (matchLit (strL "WEIGHTED TOTAL") s).isSome ||
    (matchLit (strL "OVERALL") s).isSome || (matchLit (strL "TOTAL") s).isSome

/-- The lazy group `(.*?)` (DOTALL): shortest prefix ending where a
terminator matches or where `$` matches (end of text, or just before a
single trailing newline — Python `$` without MULTILINE). -/
def takeBody : List Char → List Char
  | [] => []
  | c :: rest =>
      if termAt (c :: rest) then []
      else if c = '\n' ∧ rest = [] then []
      else c :: takeBody rest

/-- Group 1 of the scores-section regex
`(?:SCORES?|RUBRIC SCORES?|EVALUATION)\s*:?\s*\n(.*?)(?:WEIGHTED TOTAL|OVERALL|TOTAL|$)`
searched with IGNORECASE and DOTALL, if the regex matches. -/
def scoresSectionBody (t : List Char) : Option (List Char) :=
  (findSectionStart t).map takeBody

/-- Model of `score_text`: the section body if the section regex matched, otherwise
the whole response. -/
def scoreText (t : List Char) : List Char :=
  (scoresSectionBody t).getD t

/-- The module-level rubric of the source (weights as exact rationals). -/
def RUBRIC : List (String × Rat) :=
  [("Project Definition", mkRat 15 100),
   ("Data Identification & Assessment", mkRat 20 100),
   ("Mathematical Modeling", mkRat 25 100),
   ("Risk Analysis", mkRat 20 100),
   ("Recommendations", mkRat 15 100),
   ("Communication & Clarity", mkRat 5 100)]

/-- The example rubric of the specification's scenarios. -/
def rubricAB : List (String × Rat) :=
  [("A", mkRat 1 2), ("B", mkRat 1 2)]

/-- The in-range category scores recorded by the per-category loops, in
rubric order (the partial dict `scores` before missing keys are filled). -/
def foundScores (rubric : List (String × Rat)) (body : List Char) :
    List (String × Rat) :=
  rubric.filterMap fun kw => (extractCategory body kw.1).map fun v => (kw.1, v)

/-- The five weighted-total header patterns, in source order. -/
def totalKeys : List (List Char) :=
  [strL "WEIGHTED TOTAL", strL "OVERALL SCORE", strL "TOTAL SCORE",
   strL "FINAL SCORE", strL "WEIGHTED"]

/-- The weighted-total scan over the whole response.  Faithful to the
source: a match is assigned to `total` before the range check, so an
out-of-range match is kept in `total` when the loop moves on, and the loop
breaks only at an in-range match. -/
def totalScan : List (List Char) → List Char → Rat → Rat
  | [], _, total => total
  | k :: ks, text, total =>
      match searchP1 k text with
      | none => totalScan ks text total
      | some v => if 0 ≤ v ∧ v ≤ 100 then v else totalScan ks text v

/-- Model of `sum(scores.get(k, 0) * RUBRIC[k] for k in RUBRIC.keys())`. -/
def weightedCalc (rubric : List (String × Rat))
    (found : List (String × Rat)) : Rat :=
  (rubric.map fun kw => ((found.lookup kw.1).getD 0) * kw.2).sum

/-- Model of `extract_scores(response)` of the source, parameterised by the rubric
the module reads from its global `RUBRIC`.  Returns the scores mapping
(modelled in rubric key order; the Python dict holds the same key-value
pairs) and the total.  `not total` in Python is `total == 0.0` for the
nonnegative floats that can arise here. -/
def extract_scores (rubric : List (String × Rat)) (response : List Char) :
    List (String × Rat) × Rat :=
  let body := scoreText response
  let found := foundScores rubric body
  let t0 := totalScan totalKeys response 0
  let calcTotal := weightedCalc rubric found
  let total := if (t0 = 0 ∨ found.length < rubric.length) ∧ 0 < calcTotal
    then calcTotal else t0
  (rubric.map fun kw => (kw.1, (found.lookup kw.1).getD 0), total)

/-- One pass's interaction with the outside world: the completion call
either returns a reply, raises an ordinary exception (caught by the
`except Exception` of the loop body), or is hit by a KeyboardInterrupt
(which `except Exception` does not catch); on a reply, writing the
per-iteration file either succeeds or raises (also caught). -/
inductive PassEvent
  | reply (text : List Char) (writeOk : Bool)
  | failure
  | interrupt
  deriving DecidableEq

/-- How the iteration loop ended: `targetReached` via the success break,
`maxExhausted` via the while condition turning false, `failed` via the
break in the exception handler, `aborted` via a KeyboardInterrupt
propagating out of `main` (skipping the summary write). -/
inductive ExitKind
  | targetReached
  | maxExhausted
  | failed
  | aborted
  deriving DecidableEq

/-- The per-iteration record (`result` dict): iteration number, raw reply,
extracted scores, overall score.  The wall-clock timestamp is outside the
model. -/
structure IterationRecord where
  iteration : Nat
  script : List Char
  scores : List (String × Rat)
  overall : Rat
  deriving DecidableEq

/-- The mutable state of `main`'s loop: `iteration`, `overall`,
`all_iterations`, the set of iteration files successfully written, and the
number of completion calls made. -/
structure LoopState where
  iteration : Nat
  overall : Rat
  records : List IterationRecord
  written : List Nat
  calls : Nat
  deriving DecidableEq

/-- State at entry of the loop: `iteration = 1`, `overall = 0`. -/
def initState : LoopState :=
  ⟨1, 0, [], [], 0⟩

/-- The `while overall < target_score and iteration <= max_iterations` loop
of `main`, driven by the fixed sequence `events` of per-pass outcomes
(indexed by iteration number).  `fuel` is the number of iterations the cap
still allows (`max_iterations - iteration + 1`), so `fuel = 0` is exactly
`iteration > max_iterations`.  Each pass: call the completion (counted in
`calls`), extract scores, append the record, write the file, then break if
the target is reached, else increment and loop. -/
def runLoop (rubric : List (String × Rat)) (target : Rat)
    (events : Nat → PassEvent) : Nat → LoopState → LoopState × ExitKind
  | 0, s => (s, .maxExhausted)
  | fuel + 1, s =>
      if s.overall < target then
        let s0 : LoopState := { s with calls := s.calls + 1 }
        match events s.iteration with
        | .interrupt => (s0, .aborted)
        | .failure => (s0, .failed)
        | .reply text writeOk =>
            let r := extract_scores rubric text
            let rec1 : IterationRecord := ⟨s.iteration, text, r.1, r.2⟩
            let s1 : LoopState :=
              { s0 with overall := r.2, records := s0.records ++ [rec1] }
            if writeOk then
              let s2 : LoopState :=
                { s1 with written := s1.written ++ [s1.iteration] }
              if target ≤ r.2 then (s2, .targetReached)
              else runLoop rubric target events fuel
                { s2 with iteration := s2.iteration + 1 }
            else (s1, .failed)
      else (s, .maxExhausted)

/-- The summary dict written after the loop: note `total_iterations` is
`iteration - 1` with the iteration counter as the loop left it. -/
structure RunSummary where
  final_score : Rat
  target_score : Rat
  total_iterations : Nat
  achieved_target : Bool
  iterations : List IterationRecord
  deriving DecidableEq

/-- Build the summary from the loop's final state. -/
def mkSummary (target : Rat) (s : LoopState) : RunSummary :=
  ⟨s.overall, target, s.iteration - 1, decide (target ≤ s.overall), s.records⟩

/-- Model of `main`, from loop entry to the summary write: runs the loop and writes
the summary, except that a KeyboardInterrupt propagates out before the
summary write, so no summary is produced in that case.  Returns the
(optional) summary, the final loop state and how the loop ended. -/
def runMain (rubric : List (String × Rat)) (target : Rat)
    (maxIterations : Nat) (events : Nat → PassEvent) :
    Option RunSummary × LoopState × ExitKind :=
  let se := runLoop rubric target events maxIterations initState
  match se.2 with
  | .aborted => (none, se.1, se.2)
  | _ => (some (mkSummary target se.1), se.1, se.2)

/-! ### Concrete inputs used by counterexamples and witnesses -/

/-- A scores block for the full source rubric with every category scored 50,
followed by a weighted-total line with the given payload. -/
def sixCats (t : String) : List Char :=
  strL ("SCORES:\nProject Definition: 50\nData Identification & Assessment: 50\nMathematical Modeling: 50\nRisk Analysis: 50\nRecommendations: 50\nCommunication & Clarity: 50\nWEIGHTED TOTAL: " ++ t)

/-- Specification of one run of the loop on all-successful events, relative
to a start state: `p` is the number of passes executed. -/
def okOut (target : Rat) (T : Nat → Rat) (s : LoopState) (fuel p : Nat)
    (out : LoopState × ExitKind) : Prop :=
  out.1.records.length = s.records.length + p ∧ p ≤ fuel ∧
  (out.2 = ExitKind.targetReached ∨ out.2 = ExitKind.maxExhausted) ∧
  (out.2 = ExitKind.targetReached → out.1.iteration + 1 = s.iteration + p ∧ 1 ≤ p) ∧
  (out.2 = ExitKind.maxExhausted →
    out.1.iteration = s.iteration + p ∧ p = fuel ∧ out.1.overall < target) ∧
  (out.2 = ExitKind.targetReached ↔
    ∃ j, s.iteration ≤ j ∧ j < s.iteration + fuel ∧ target ≤ T j)

/-- Reply texts realising the per-pass totals 40, 70, 96 of the
specification's scenarios. -/
def texts96 : Nat → List Char := fun j =>
  strL (if j = 1 then "WEIGHTED TOTAL: 40"
        else if j = 2 then "WEIGHTED TOTAL: 70" else "WEIGHTED TOTAL: 96")

/-- The all-success event stream of the [40, 70, 96] scenario. -/
def ev96 : Nat → PassEvent := fun j => PassEvent.reply (texts96 j) true

/-- Event stream with an ordinary completion exception at pass `k` and
successful replies elsewhere. -/
def evFail (texts : Nat → List Char) (k : Nat) : Nat → PassEvent :=
  fun j => if j = k then PassEvent.failure else PassEvent.reply (texts j) true

/-- Event stream with a KeyboardInterrupt during pass `k`'s completion
call and successful replies elsewhere. -/
def evInterrupt (texts : Nat → List Char) (k : Nat) : Nat → PassEvent :=
  fun j => if j = k then PassEvent.interrupt
           else PassEvent.reply (texts j) true

/-- Event stream in which pass `k`'s completion succeeds but writing its
per-iteration file raises, with successful passes elsewhere. -/
def evWriteFail (texts : Nat → List Char) (failText : List Char) (k : Nat) :
    Nat → PassEvent :=
  fun j => if j = k then PassEvent.reply failText false
           else PassEvent.reply (texts j) true

/-- The ASCII digit character of `d` (for `d < 10`). -/
def digitChar (d : Nat) : Char :=
  Char.ofNat (48 + d)

/-- The ten ASCII digits. -/
def digitList : List Char :=
  ['0', '1', '2', '3', '4', '5', '6', '7', '8', '9']

/-- Fuel-driven most-significant-first decimal rendering. -/
def natCharsAux : Nat → Nat → List Char → List Char
  | 0, _, acc => acc
  | fuel + 1, n, acc =>
      if n < 10 then digitChar n :: acc
      else natCharsAux fuel (n / 10) (digitChar (n % 10) :: acc)

/-- The decimal numeral of `n`, as written in the canonical scores block. -/
def natChars (n : Nat) : List Char :=
  natCharsAux (n + 1) n []

/-- Body part of the canonical well-formed scores block for the A/B rubric. -/
def wfbTail (a b t : Nat) : List Char :=
  strL "A: " ++ (natChars a ++ (strL "\nB: " ++ (natChars b ++
    (strL "\nWEIGHTED TOTAL: " ++ natChars t))))

/-- The canonical well-formed scores block of the specification:
`SCORES:` header, one `<category>: <value>` line per category of the A/B
rubric, and a `WEIGHTED TOTAL: <t>` line. -/
def wellFormedBlock (a b t : Nat) : List Char :=
  strL "SCORES:\n" ++ wfbTail a b t

/-! ### Lemmas about the extraction assembly -/

theorem extract_scores_def (rubric : List (String × Rat)) (response : List Char) :
    extract_scores rubric response =
      (rubric.map fun kw =>
        (kw.1, ((foundScores rubric (scoreText response)).lookup kw.1).getD 0),
       if (totalScan totalKeys response 0 = 0 ∨
            (foundScores rubric (scoreText response)).length < rubric.length) ∧
          0 < weightedCalc rubric (foundScores rubric (scoreText response))
       then weightedCalc rubric (foundScores rubric (scoreText response))
       else totalScan totalKeys response 0) := rfl

theorem firstInRange_some_range {l : List (Option Rat)} {v : Rat}
    (h : firstInRange l = some v) : 0 ≤ v ∧ v ≤ 100 := by
  induction l with
  | nil => simp [firstInRange] at h
  | cons o rest ih =>
      match o with
      | none => exact ih (by simpa [firstInRange] using h)
      | some w =>
          by_cases hw : 0 ≤ w ∧ w ≤ 100
          · simp [firstInRange, hw] at h
            exact h ▸ hw
          · exact ih (by simpa [firstInRange, hw] using h)

theorem extractCategory_range {body : List Char} {key : String} {v : Rat}
    (h : extractCategory body key = some v) : 0 ≤ v ∧ v ≤ 100 :=
  firstInRange_some_range h

theorem foundScores_eq_nil {rubric : List (String × Rat)} {body : List Char}
    (h : ∀ kw ∈ rubric, extractCategory body kw.1 = none) :
    foundScores rubric body = [] := by
  induction rubric with
  | nil => rfl
  | cons kw rest ih =>
      simp only [foundScores, List.filterMap_cons, h kw (by simp)]
      exact ih fun k hk => h k (by simp [hk])

theorem foundScores_eq_map {rubric : List (String × Rat)} {body : List Char}
    {f : String → Rat}
    (h : ∀ kw ∈ rubric, extractCategory body kw.1 = some (f kw.1)) :
    foundScores rubric body = rubric.map fun kw => (kw.1, f kw.1) := by
  induction rubric with
  | nil => rfl
  | cons kw rest ih =>
      simp only [foundScores, List.filterMap_cons, h kw (by simp),
        Option.map_some', List.map_cons]
      exact congrArg _ (ih fun k hk => h k (by simp [hk]))

theorem foundScores_cons_none {kw : String × Rat} {rest : List (String × Rat)}
    {body : List Char} (hx : extractCategory body kw.1 = none) :
    foundScores (kw :: rest) body = foundScores rest body := by
  simp [foundScores, List.filterMap_cons, hx]

theorem foundScores_cons_some {kw : String × Rat} {rest : List (String × Rat)}
    {body : List Char} {v : Rat} (hx : extractCategory body kw.1 = some v) :
    foundScores (kw :: rest) body = (kw.1, v) :: foundScores rest body := by
  simp [foundScores, List.filterMap_cons, hx]

theorem lookup_foundScores_none {rubric : List (String × Rat)} {body : List Char}
    {k : String} (h : extractCategory body k = none) :
    (foundScores rubric body).lookup k = none := by
  induction rubric with
  | nil => rfl
  | cons kw rest ih =>
      match hx : extractCategory body kw.1 with
      | none => rw [foundScores_cons_none hx]; exact ih
      | some v =>
          rw [foundScores_cons_some hx]
          have hne : (k == kw.1) = false := by
            apply beq_eq_false_iff_ne.mpr
            intro he
            rw [he] at h
            rw [h] at hx
            exact Option.noConfusion hx
          simp only [List.lookup, hne]
          exact ih

theorem lookup_map_keyed {l : List (String × Rat)} (g : String → Rat)
    {k : String} (hk : k ∈ l.map Prod.fst) :
    (l.map fun kw => (kw.1, g kw.1)).lookup k = some (g k) := by
  induction l with
  | nil => simp at hk
  | cons kw rest ih =>
      by_cases he : k = kw.1
      · subst he
        simp [List.lookup]
      · have hk' : k ∈ rest.map Prod.fst := by
          rcases List.mem_map.mp hk with ⟨a, ha, hae⟩
          rcases List.mem_cons.mp ha with h1 | h2
          · exact absurd (hae ▸ congrArg Prod.fst h1) he
          · exact List.mem_map.mpr ⟨a, h2, hae⟩
        have hne : (k == kw.1) = false := beq_eq_false_iff_ne.mpr he
        simp only [List.map_cons, List.lookup, hne]
        exact ih hk'

theorem getLast?_cons_getD {α : Type} (x init : α) (L : List α) :
    ((x :: L).getLast?).getD init = (L.getLast?).getD x := by
  induction L generalizing x init with
  | nil => rfl
  | cons y ys ih =>
      rw [List.getLast?_cons_cons, ih y init, ih y x]

theorem totalScan_all_none {keys : List (List Char)} {text : List Char}
    (h : ∀ p ∈ keys, searchP1 p text = none) (init : Rat) :
    totalScan keys text init = init := by
  induction keys with
  | nil => rfl
  | cons k ks ih =>
      simp only [totalScan, h k (by simp)]
      exact ih fun p hp => h p (by simp [hp])

theorem totalScan_first_in_range {keys : List (List Char)} {text : List Char}
    {v : Rat} (h : firstInRange (keys.map fun k => searchP1 k text) = some v)
    (init : Rat) : totalScan keys text init = v := by
  induction keys generalizing init with
  | nil => simp [firstInRange] at h
  | cons k ks ih =>
      simp only [List.map_cons] at h
      match hx : searchP1 k text with
      | none =>
          rw [hx] at h
          simp only [firstInRange] at h
          simp only [totalScan, hx]
          exact ih h init
      | some w =>
          rw [hx] at h
          by_cases hw : 0 ≤ w ∧ w ≤ 100
          · simp only [firstInRange, if_pos hw, Option.some.injEq] at h
            subst h
            simp [totalScan, hx, if_pos hw]
          · simp only [firstInRange, if_neg hw] at h
            simp only [totalScan, hx, if_neg hw]
            exact ih h w

theorem totalScan_no_in_range {keys : List (List Char)} {text : List Char}
    (h : firstInRange (keys.map fun k => searchP1 k text) = none) (init : Rat) :
    totalScan keys text init =
      ((keys.filterMap fun k => searchP1 k text).getLast?).getD init := by
  induction keys generalizing init with
  | nil => rfl
  | cons k ks ih =>
      simp only [List.map_cons] at h
      match hx : searchP1 k text with
      | none =>
          rw [hx] at h
          simp only [firstInRange] at h
          have hfm : List.filterMap (fun k => searchP1 k text) (k :: ks) =
              List.filterMap (fun k => searchP1 k text) ks := by
            simp [List.filterMap_cons, hx]
          simp only [totalScan, hx]
          rw [hfm]
          exact ih h init
      | some w =>
          rw [hx] at h
          by_cases hw : 0 ≤ w ∧ w ≤ 100
          · simp [firstInRange, hw] at h
          · simp only [firstInRange, if_neg hw] at h
            have hfm : List.filterMap (fun k => searchP1 k text) (k :: ks) =
                w :: List.filterMap (fun k => searchP1 k text) ks := by
              simp [List.filterMap_cons, hx]
            simp only [totalScan, hx, if_neg hw]
            rw [hfm, getLast?_cons_getD]
            exact ih h w

theorem extract_scores_fst (rubric : List (String × Rat)) (response : List Char) :
    (extract_scores rubric response).1 =
      rubric.map fun kw =>
        (kw.1, ((foundScores rubric (scoreText response)).lookup kw.1).getD 0) := rfl

theorem extract_scores_snd (rubric : List (String × Rat)) (response : List Char) :
    (extract_scores rubric response).2 =
      if (totalScan totalKeys response 0 = 0 ∨
           (foundScores rubric (scoreText response)).length < rubric.length) ∧
         0 < weightedCalc rubric (foundScores rubric (scoreText response))
      then weightedCalc rubric (foundScores rubric (scoreText response))
      else totalScan totalKeys response 0 := rfl

theorem weightedCalc_nil (rubric : List (String × Rat)) :
    weightedCalc rubric [] = 0 := by
  apply List.sum_eq_zero
  intro x hx
  rcases List.mem_map.mp hx with ⟨kw, _, rfl⟩
  simp [List.lookup]

theorem weightedCalc_map (rubric : List (String × Rat)) (f : String → Rat) :
    weightedCalc rubric (rubric.map fun kw => (kw.1, f kw.1)) =
      (rubric.map fun kw => f kw.1 * kw.2).sum := by
  apply congrArg List.sum
  apply List.map_congr_left
  intro kw hkw
  rw [lookup_map_keyed f (List.mem_map.mpr ⟨kw, hkw, rfl⟩)]
  rfl

/-! ### Claims about the score extractor -/

/-- Claim C7: for every input with no recognisable score pattern for any
rubric category and no recognisable total pattern, `extract_scores` returns
every category mapped to 0 and a total of 0.  (The Python function never
raises: it is modelled by the total function `extract_scores`, whose
exception-free evaluation is the equality proved here.) -/
theorem extract_scores_all_zero (rubric : List (String × Rat))
    (response : List Char)
    (hcat : ∀ kw ∈ rubric, extractCategory (scoreText response) kw.1 = none)
    (htot : ∀ p ∈ totalKeys, searchP1 p response = none) :
    extract_scores rubric response = (rubric.map fun kw => (kw.1, 0), 0) := by
  rw [extract_scores_def, foundScores_eq_nil hcat, totalScan_all_none htot,
    weightedCalc_nil]
  simp [List.lookup]

/-- Witness for C7 at a concrete scoreless input. -/
theorem extract_scores_all_zero_witness :
    extract_scores RUBRIC (strL "hello") =
      (RUBRIC.map fun kw => (kw.1, 0), 0) :=
  extract_scores_all_zero RUBRIC (strL "hello") (by decide) (by decide)

/-- Claim C5: for every text whose per-category extraction yields a value
for every rubric category while the whole-text total scan finds nothing,
the returned total is the recomputed weighted sum Σ score·weight (and the
scores mapping is exactly the extracted values). -/
theorem extract_scores_recomputed_total (rubric : List (String × Rat))
    (response : List Char) (f : String → Rat)
    (hw : ∀ kw ∈ rubric, 0 ≤ kw.2)
    (hcat : ∀ kw ∈ rubric, extractCategory (scoreText response) kw.1 = some (f kw.1))
    (htot : ∀ p ∈ totalKeys, searchP1 p response = none) :
    extract_scores rubric response =
      (rubric.map fun kw => (kw.1, f kw.1),
       (rubric.map fun kw => f kw.1 * kw.2).sum) := by
  have hnn : 0 ≤ (rubric.map fun kw => f kw.1 * kw.2).sum := by
    apply List.sum_nonneg
    intro x hx
    rcases List.mem_map.mp hx with ⟨kw, hkw, rfl⟩
    exact mul_nonneg (extractCategory_range (hcat kw hkw)).1 (hw kw hkw)
  rw [extract_scores_def, foundScores_eq_map hcat, totalScan_all_none htot,
    weightedCalc_map]
  simp only [Prod.mk.injEq]
  constructor
  · apply List.map_congr_left
    intro kw hkw
    rw [lookup_map_keyed f (List.mem_map.mpr ⟨kw, hkw, rfl⟩)]
    rfl
  · rcases lt_or_eq_of_le hnn with hpos | hzero
    · rw [if_pos ⟨Or.inl (by simp), hpos⟩]
    · rw [if_neg]
      · exact hzero
      · intro hc
        rw [← hzero] at hc
        exact lt_irrefl 0 hc.2

/-- Witness for C5: the specification's example, rubric A/B with text
lacking any total line. -/
theorem extract_scores_recomputed_total_witness :
    extract_scores rubricAB (strL "A: 80\nB: 70") =
      (rubricAB.map fun kw =>
        (kw.1, (fun k => if k = "A" then (80 : Rat) else 70) kw.1),
       (rubricAB.map fun kw =>
         (fun k => if k = "A" then (80 : Rat) else 70) kw.1 * kw.2).sum) :=
  extract_scores_recomputed_total rubricAB (strL "A: 80\nB: 70")
    (fun k => if k = "A" then 80 else 70) (by decide) (by decide) (by decide)

/-- Claim C3, amended: the returned total is either the scanned total, or
the recomputed weighted sum and in that case the recomputed value is
nonzero; and a scan result that is nonzero is returned unchanged whenever
every rubric category had a value extracted.  (As stated the claim fails:
a scanned total of exactly `0` also triggers recomputation, because the
source tests `not total`; see the counterexample.) -/
theorem extract_scores_total_choice (rubric : List (String × Rat))
    (response : List Char) :
    ((extract_scores rubric response).2 = totalScan totalKeys response 0 ∨
      ((extract_scores rubric response).2 =
          weightedCalc rubric (foundScores rubric (scoreText response)) ∧
        weightedCalc rubric (foundScores rubric (scoreText response)) ≠ 0)) ∧
    (totalScan totalKeys response 0 ≠ 0 →
      (foundScores rubric (scoreText response)).length = rubric.length →
      (extract_scores rubric response).2 = totalScan totalKeys response 0) := by
  rw [extract_scores_snd]
  by_cases hc : (totalScan totalKeys response 0 = 0 ∨
      (foundScores rubric (scoreText response)).length < rubric.length) ∧
      0 < weightedCalc rubric (foundScores rubric (scoreText response))
  · rw [if_pos hc]
    refine ⟨Or.inr ⟨rfl, ne_of_gt hc.2⟩, fun h1 h2 => ?_⟩
    rcases hc.1 with h | h
    · exact absurd h h1
    · rw [h2] at h
      exact absurd h (lt_irrefl _)
  · rw [if_neg hc]
    exact ⟨Or.inl rfl, fun _ _ => rfl⟩

/-- Witness for the amended C3: a nonzero scanned total with all categories
extracted is returned unchanged. -/
theorem extract_scores_total_choice_witness :
    (extract_scores rubricAB (strL "SCORES:\nA: 50\nB: 50\nWEIGHTED TOTAL: 60")).2 =
      totalScan totalKeys (strL "SCORES:\nA: 50\nB: 50\nWEIGHTED TOTAL: 60") 0 :=
  (extract_scores_total_choice rubricAB
    (strL "SCORES:\nA: 50\nB: 50\nWEIGHTED TOTAL: 60")).2 (by decide) (by decide)

/-- Counterexample to C3 as stated: in a block scoring all six rubric
categories 50 with the line `WEIGHTED TOTAL: 0`, the scan finds the total 0,
every category has a value extracted, and yet the returned total is the
recomputed 50, not the scanned 0. -/
theorem extract_scores_scanned_zero_overwritten :
    searchP1 (strL "WEIGHTED TOTAL") (sixCats "0") = some 0 ∧
    totalScan totalKeys (sixCats "0") 0 = 0 ∧
    (foundScores RUBRIC (scoreText (sixCats "0"))).length = RUBRIC.length ∧
    (extract_scores RUBRIC (sixCats "0")).2 = 50 ∧ ¬((50 : Rat) = 0) :=
  of_decide_eq_true (by with_unfolding_all rfl)

/-- Claim C4, amended: the scan accepts the first pattern (in the fixed
synonym order) whose value lies in [0,100]; however, an out-of-range match
is still assigned to the running total, so when no pattern yields an
in-range value the scan result is the last matching pattern's value, which
may lie outside [0,100] and may be returned (see the counterexample).  The
scan runs on the whole response: a total header outside the scores-block
body is still found (third conjunct). -/
theorem totalScan_behavior (response : List Char) :
    (∀ v, firstInRange (totalKeys.map fun k => searchP1 k response) = some v →
        totalScan totalKeys response 0 = v ∧ 0 ≤ v ∧ v ≤ 100) ∧
    (firstInRange (totalKeys.map fun k => searchP1 k response) = none →
        totalScan totalKeys response 0 =
          ((totalKeys.filterMap fun k => searchP1 k response).getLast?).getD 0) ∧
    (extract_scores rubricAB
        (strL "OVERALL SCORE: 88\nSCORES:\nA: 50\nB: 50\n")).2 = 88 := by
  refine ⟨fun v hv => ⟨totalScan_first_in_range hv 0, firstInRange_some_range hv⟩,
    fun h => totalScan_no_in_range h 0, by decide⟩

/-- Witness for the amended C4 at a concrete response. -/
theorem totalScan_behavior_witness :
    totalScan totalKeys (strL "WEIGHTED TOTAL: 40") 0 = 40 :=
  ((totalScan_behavior (strL "WEIGHTED TOTAL: 40")).1 40 (by decide)).1

/-- Counterexample to C4 as stated: with all six categories extracted and
the line `WEIGHTED TOTAL: 150`, no synonym yields an in-range value, the
out-of-range 150 is kept by the scan, the recomputation does not overwrite
it, and 150 is the returned total — an out-of-range header value accepted
as the result. -/
theorem extract_scores_out_of_range_total :
    (extract_scores RUBRIC (sixCats "150")).2 = 150 ∧
    ¬((extract_scores RUBRIC (sixCats "150")).2 ≤ 100) := by
  decide

/-- Claim C6: a category for which no variant/pattern combination ever
yields an in-range value is recorded as 0 in the output mapping (first
conjunct, for any rubric and text); reported scores of exactly 100 and 0
are accepted; 101 and -5 are rejected by the in-range check (-5 cannot even
match the number group, which has no sign); after an out-of-range match the
remaining combinations are still tried (101 then `= 88` yields 88); and a
category with only the rejected 101 ends up 0 in the full result. -/
theorem category_range_boundary :
    (∀ (rubric : List (String × Rat)) (response : List Char) (kw : String × Rat),
        kw ∈ rubric → extractCategory (scoreText response) kw.1 = none →
        ((extract_scores rubric response).1).lookup kw.1 = some 0) ∧
    extractCategory (strL "Project Definition: 100") "Project Definition" =
      some 100 ∧
    extractCategory (strL "Project Definition: 0") "Project Definition" =
      some 0 ∧
    extractCategory (strL "Project Definition: 101") "Project Definition" =
      none ∧
    extractCategory (strL "Project Definition: -5") "Project Definition" =
      none ∧
    extractCategory (strL "Project Definition: 101\nProject Definition = 88")
      "Project Definition" = some 88 ∧
    ((extract_scores RUBRIC (strL "Project Definition: 101")).1).lookup
      "Project Definition" = some 0 := by
  refine ⟨?_, by decide, by decide, by decide, by decide, by decide, by decide⟩
  intro rubric response kw hmem hnone
  have h1 := lookup_map_keyed
    (fun k => ((foundScores rubric (scoreText response)).lookup k).getD 0)
    (List.mem_map.mpr ⟨kw, hmem, rfl⟩)
  simp only [lookup_foundScores_none hnone, Option.getD_none] at h1
  exact h1

/-- Witness for C6's universal conjunct at a concrete rubric and text. -/
theorem category_range_boundary_witness :
    ((extract_scores RUBRIC (strL "no marks here")).1).lookup "Risk Analysis" =
      some 0 :=
  category_range_boundary.1 RUBRIC (strL "no marks here")
    ("Risk Analysis", mkRat 20 100) (by decide) (by decide)

/-! ### Lemmas about the iteration loop -/

theorem runLoop_zero (rubric : List (String × Rat)) (target : Rat)
    (events : Nat → PassEvent) (s : LoopState) :
    runLoop rubric target events 0 s = (s, ExitKind.maxExhausted) := rfl

theorem runLoop_step_reply_ok {rubric : List (String × Rat)} {target : Rat}
    {events : Nat → PassEvent} {fuel : Nat} {s : LoopState} {text : List Char}
    (h : s.overall < target) (hev : events s.iteration = PassEvent.reply text true) :
    runLoop rubric target events (fuel + 1) s =
      (if target ≤ (extract_scores rubric text).2 then
        (⟨s.iteration, (extract_scores rubric text).2,
          s.records ++ [⟨s.iteration, text, (extract_scores rubric text).1,
            (extract_scores rubric text).2⟩],
          s.written ++ [s.iteration], s.calls + 1⟩, ExitKind.targetReached)
      else
        runLoop rubric target events fuel
          ⟨s.iteration + 1, (extract_scores rubric text).2,
            s.records ++ [⟨s.iteration, text, (extract_scores rubric text).1,
              (extract_scores rubric text).2⟩],
            s.written ++ [s.iteration], s.calls + 1⟩) := by
  simp [runLoop, hev, h]

theorem runLoop_step_reply_writeFail {rubric : List (String × Rat)} {target : Rat}
    {events : Nat → PassEvent} {fuel : Nat} {s : LoopState} {text : List Char}
    (h : s.overall < target) (hev : events s.iteration = PassEvent.reply text false) :
    runLoop rubric target events (fuel + 1) s =
      (⟨s.iteration, (extract_scores rubric text).2,
        s.records ++ [⟨s.iteration, text, (extract_scores rubric text).1,
          (extract_scores rubric text).2⟩],
        s.written, s.calls + 1⟩, ExitKind.failed) := by
  simp [runLoop, hev, h]

theorem runLoop_step_failure {rubric : List (String × Rat)} {target : Rat}
    {events : Nat → PassEvent} {fuel : Nat} {s : LoopState}
    (h : s.overall < target) (hev : events s.iteration = PassEvent.failure) :
    runLoop rubric target events (fuel + 1) s =
      (⟨s.iteration, s.overall, s.records, s.written, s.calls + 1⟩,
       ExitKind.failed) := by
  simp [runLoop, hev, h]

theorem runLoop_step_interrupt {rubric : List (String × Rat)} {target : Rat}
    {events : Nat → PassEvent} {fuel : Nat} {s : LoopState}
    (h : s.overall < target) (hev : events s.iteration = PassEvent.interrupt) :
    runLoop rubric target events (fuel + 1) s =
      (⟨s.iteration, s.overall, s.records, s.written, s.calls + 1⟩,
       ExitKind.aborted) := by
  simp [runLoop, hev, h]

theorem runLoop_ok_spec (rubric : List (String × Rat)) (target : Rat)
    (texts : Nat → List Char) :
    ∀ (fuel : Nat) (s : LoopState), s.overall < target →
      ∃ p : Nat, okOut target (fun j => (extract_scores rubric (texts j)).2)
        s fuel p
        (runLoop rubric target (fun j => PassEvent.reply (texts j) true) fuel s) := by
  intro fuel
  induction fuel with
  | zero =>
      intro s hs
      refine ⟨0, ?_⟩
      rw [runLoop_zero]
      unfold okOut
      refine ⟨?_, ?_, ?_, ?_, ?_, ?_⟩
      · simp
      · omega
      · exact Or.inr rfl
      · intro h; simp at h
      · intro _
        exact ⟨by simp, rfl, hs⟩
      · constructor
        · intro h; simp at h
        · rintro ⟨j, hj1, hj2, _⟩
          omega
  | succ fuel ih =>
      intro s hs
      rw [runLoop_step_reply_ok hs rfl]
      by_cases htar : target ≤ (extract_scores rubric (texts s.iteration)).2
      · rw [if_pos htar]
        refine ⟨1, ?_⟩
        unfold okOut
        refine ⟨?_, ?_, ?_, ?_, ?_, ?_⟩
        · simp
        · omega
        · exact Or.inl rfl
        · intro _
          exact ⟨by simp, le_refl 1⟩
        · intro h; simp at h
        · constructor
          · intro _
            exact ⟨s.iteration, le_refl _, by omega, htar⟩
          · intro _; rfl
      · rw [if_neg htar]
        have hs3 : (⟨s.iteration + 1, (extract_scores rubric (texts s.iteration)).2,
            s.records ++ [⟨s.iteration, texts s.iteration,
              (extract_scores rubric (texts s.iteration)).1,
              (extract_scores rubric (texts s.iteration)).2⟩],
            s.written ++ [s.iteration], s.calls + 1⟩ : LoopState).overall < target :=
          lt_of_not_le htar
        obtain ⟨p, hp⟩ := ih _ hs3
        refine ⟨p + 1, ?_⟩
        unfold okOut at hp ⊢
        obtain ⟨h1, h2, h3, h4, h5, h6⟩ := hp
        refine ⟨?_, by omega, h3, ?_, ?_, ?_⟩
        · rw [h1]
          simp
          omega
        · intro h
          obtain ⟨ha, hb⟩ := h4 h
          simp at ha
          exact ⟨by omega, by omega⟩
        · intro h
          obtain ⟨ha, hb, hc⟩ := h5 h
          simp at ha
          exact ⟨by omega, by omega, hc⟩
        · rw [h6]
          constructor
          · rintro ⟨j, hj1, hj2, hj3⟩
            simp at hj1 hj2
            exact ⟨j, by omega, by omega, hj3⟩
          · rintro ⟨j, hj1, hj2, hj3⟩
            by_cases hj : j = s.iteration
            · subst hj
              exact absurd hj3 htar
            · refine ⟨j, ?_, ?_, hj3⟩
              · simp
                omega
              · simp
                omega

theorem runLoop_reach (rubric : List (String × Rat)) (target : Rat)
    (events : Nat → PassEvent) (texts : Nat → List Char) (k : Nat) :
    ∀ (fuel : Nat) (s : LoopState), s.overall < target →
      (∀ j, s.iteration ≤ j → j < k →
        events j = PassEvent.reply (texts j) true ∧
          (extract_scores rubric (texts j)).2 < target) →
      s.iteration ≤ k → k < s.iteration + fuel →
      ∃ s1 : LoopState,
        runLoop rubric target events fuel s =
          runLoop rubric target events (fuel - (k - s.iteration)) s1 ∧
        s1.iteration = k ∧ s1.overall < target ∧
        s1.records.length = s.records.length + (k - s.iteration) ∧
        s1.written = s.written ++ List.range' s.iteration (k - s.iteration) ∧
        s1.calls = s.calls + (k - s.iteration) := by
  intro fuel
  induction fuel with
  | zero =>
      intro s hs hpre hk1 hk2
      omega
  | succ fuel ih =>
      intro s hs hpre hk1 hk2
      by_cases hk : k = s.iteration
      · refine ⟨s, ?_, hk.symm, hs, by omega, by simp [hk], by omega⟩
        congr 1
        omega
      · have hstep := hpre s.iteration (le_refl _) (by omega)
        rw [runLoop_step_reply_ok hs hstep.1, if_neg (not_le.mpr hstep.2)]
        obtain ⟨s1, ha, hb, hc, hd, he, hf⟩ := ih
          ⟨s.iteration + 1, (extract_scores rubric (texts s.iteration)).2,
            s.records ++ [⟨s.iteration, texts s.iteration,
              (extract_scores rubric (texts s.iteration)).1,
              (extract_scores rubric (texts s.iteration)).2⟩],
            s.written ++ [s.iteration], s.calls + 1⟩
          hstep.2 (fun j hj1 hj2 => hpre j (by simp at hj1; omega) hj2)
          (by simp; omega) (by simp; omega)
        refine ⟨s1, ?_, hb, hc, ?_, ?_, ?_⟩
        · rw [ha]
          have hfe : fuel - (k - (s.iteration + 1)) = fuel + 1 - (k - s.iteration) := by
            omega
          exact congrArg (fun n => runLoop rubric target events n s1) hfe
        · rw [hd]
          simp
          omega
        · rw [he]
          have hn : k - s.iteration = (k - (s.iteration + 1)) + 1 := by omega
          rw [hn, List.range'_succ]
          simp
        · rw [hf]
          simp
          omega

theorem runMain_not_aborted (rubric : List (String × Rat)) (target : Rat)
    (maxIterations : Nat) (events : Nat → PassEvent)
    (h : (runLoop rubric target events maxIterations initState).2 ≠
      ExitKind.aborted) :
    runMain rubric target maxIterations events =
      (some (mkSummary target
        (runLoop rubric target events maxIterations initState).1),
       (runLoop rubric target events maxIterations initState).1,
       (runLoop rubric target events maxIterations initState).2) := by
  cases hx : (runLoop rubric target events maxIterations initState).2 with
  | aborted => exact absurd hx h
  | targetReached => simp [runMain, hx]
  | maxExhausted => simp [runMain, hx]
  | failed => simp [runMain, hx]

theorem runMain_aborted (rubric : List (String × Rat)) (target : Rat)
    (maxIterations : Nat) (events : Nat → PassEvent)
    (h : (runLoop rubric target events maxIterations initState).2 =
      ExitKind.aborted) :
    runMain rubric target maxIterations events =
      (none, (runLoop rubric target events maxIterations initState).1,
       (runLoop rubric target events maxIterations initState).2) := by
  simp [runMain, h]

/-- Lemma `runLoop_reach` specialised to the loop entry state: if every pass
before `k` succeeds with a total below target, the run is the run from a
state at iteration `k` with `k - 1` records, files 1..k-1 written, and
`k - 1` completion calls made. -/
theorem runLoop_reach_init (rubric : List (String × Rat)) (target : Rat)
    (events : Nat → PassEvent) (texts : Nat → List Char) (k maxIterations : Nat)
    (htarget : 0 < target) (hk1 : 1 ≤ k) (hk2 : k ≤ maxIterations)
    (hpre : ∀ j, 1 ≤ j → j < k → events j = PassEvent.reply (texts j) true ∧
        (extract_scores rubric (texts j)).2 < target) :
    ∃ (s1 : LoopState) (m : Nat),
      runLoop rubric target events maxIterations initState =
        runLoop rubric target events (m + 1) s1 ∧
      s1.iteration = k ∧ s1.overall < target ∧
      s1.records.length = k - 1 ∧
      s1.written = List.range' 1 (k - 1) ∧
      s1.calls = k - 1 := by
  obtain ⟨s1, ha, hb, hc, hd, he, hf⟩ :=
    runLoop_reach rubric target events texts k maxIterations initState
      (by simpa [initState] using htarget)
      (fun j hj1 hj2 => hpre j (by simpa [initState] using hj1) hj2)
      (by simp [initState]; omega) (by simp [initState]; omega)
  refine ⟨s1, maxIterations - (k - 1) - 1, ?_, hb, hc, ?_, ?_, ?_⟩
  · rw [ha]
    congr 1
    simp [initState]
    omega
  · rw [hd]; simp [initState]
  · rw [he]; simp [initState]
  · rw [hf]; simp [initState]

/-! ### Claims about the iteration controller -/

/-- Claim C2: for every fixed sequence of completion replies (each pass's
completion and file write succeed), the loop executes at most
`maxIterations` passes; it terminates in TARGET_REACHED exactly when some
pass `j` with `1 ≤ j ≤ maxIterations` has extracted weighted total at or
above the target, and otherwise it terminates with the while condition
false (MAX_ITERATIONS_EXHAUSTED) with the final overall below target. -/
theorem controller_loop_termination (rubric : List (String × Rat))
    (target : Rat) (htarget : 0 < target) (texts : Nat → List Char)
    (maxIterations : Nat) :
    (runLoop rubric target (fun j => PassEvent.reply (texts j) true)
        maxIterations initState).1.records.length ≤ maxIterations ∧
    ((runLoop rubric target (fun j => PassEvent.reply (texts j) true)
        maxIterations initState).2 = ExitKind.targetReached ↔
      ∃ j, 1 ≤ j ∧ j ≤ maxIterations ∧
        target ≤ (extract_scores rubric (texts j)).2) ∧
    ((runLoop rubric target (fun j => PassEvent.reply (texts j) true)
        maxIterations initState).2 ≠ ExitKind.targetReached →
      (runLoop rubric target (fun j => PassEvent.reply (texts j) true)
          maxIterations initState).2 = ExitKind.maxExhausted ∧
      (runLoop rubric target (fun j => PassEvent.reply (texts j) true)
          maxIterations initState).1.overall < target) := by
  obtain ⟨p, h1, h2, h3, h4, h5, h6⟩ :=
    runLoop_ok_spec rubric target texts maxIterations initState
      (by simpa [initState] using htarget)
  refine ⟨?_, ?_, ?_⟩
  · rw [h1]
    simp [initState]
    omega
  · rw [h6]
    constructor
    · rintro ⟨j, hj1, hj2, hj3⟩
      simp [initState] at hj1 hj2
      exact ⟨j, hj1, by omega, hj3⟩
    · rintro ⟨j, hj1, hj2, hj3⟩
      refine ⟨j, ?_, ?_, hj3⟩
      · simp [initState]; omega
      · simp [initState]; omega
  · intro hne
    rcases h3 with h | h
    · exact absurd h hne
    · exact ⟨h, (h5 h).2.2⟩

/-- Witness for C2: with target 96, cap 3 and per-pass totals [40, 70, 96],
the loop ends in TARGET_REACHED. -/
theorem controller_loop_termination_witness :
    (runLoop RUBRIC 96 (fun j => PassEvent.reply (texts96 j) true) 3
        initState).2 = ExitKind.targetReached :=
  (controller_loop_termination RUBRIC 96 (by decide) texts96 3).2.1.mpr
    ⟨3, by omega, by omega, of_decide_eq_true (by with_unfolding_all rfl)⟩

/-- Claim C9 (amended): when the run terminates normally the summary is
written; its `total_iterations` field equals the number of IterationRecords
when the loop ended by exhausting the cap, but is one less than the number
of records when the target was reached, because the success break skips the
final `iteration += 1`.  (As stated — count always equals passes — the
claim fails; see the counterexample.) -/
theorem summary_iteration_count (rubric : List (String × Rat)) (target : Rat)
    (htarget : 0 < target) (texts : Nat → List Char) (maxIterations : Nat) :
    runMain rubric target maxIterations
        (fun j => PassEvent.reply (texts j) true) =
      (some (mkSummary target
        (runLoop rubric target (fun j => PassEvent.reply (texts j) true)
          maxIterations initState).1),
       (runLoop rubric target (fun j => PassEvent.reply (texts j) true)
          maxIterations initState).1,
       (runLoop rubric target (fun j => PassEvent.reply (texts j) true)
          maxIterations initState).2) ∧
    ((runLoop rubric target (fun j => PassEvent.reply (texts j) true)
        maxIterations initState).2 = ExitKind.maxExhausted →
      (mkSummary target (runLoop rubric target
          (fun j => PassEvent.reply (texts j) true)
          maxIterations initState).1).total_iterations =
        (runLoop rubric target (fun j => PassEvent.reply (texts j) true)
          maxIterations initState).1.records.length) ∧
    ((runLoop rubric target (fun j => PassEvent.reply (texts j) true)
        maxIterations initState).2 = ExitKind.targetReached →
      (mkSummary target (runLoop rubric target
          (fun j => PassEvent.reply (texts j) true)
          maxIterations initState).1).total_iterations + 1 =
        (runLoop rubric target (fun j => PassEvent.reply (texts j) true)
          maxIterations initState).1.records.length) := by
  obtain ⟨p, h1, h2, h3, h4, h5, h6⟩ :=
    runLoop_ok_spec rubric target texts maxIterations initState
      (by simpa [initState] using htarget)
  refine ⟨?_, ?_, ?_⟩
  · apply runMain_not_aborted
    rcases h3 with h | h <;> simp [h]
  · intro h
    obtain ⟨ha, _, _⟩ := h5 h
    rw [show initState.iteration = 1 from rfl] at ha
    rw [show initState.records.length = 0 from rfl] at h1
    simp only [mkSummary]
    omega
  · intro h
    obtain ⟨ha, hb⟩ := h4 h
    rw [show initState.iteration = 1 from rfl] at ha
    rw [show initState.records.length = 0 from rfl] at h1
    simp only [mkSummary]
    omega

/-- Claim C9 counterexample: in the scenario target 96, max 3, per-pass
totals [40, 70, 96], the run stops after pass 3 in TARGET_REACHED with 3
records in the summary, but the summary's recorded iteration count is 2,
not 3 as the claim states. -/
theorem summary_count_mismatch :
    ((runMain RUBRIC 96 3 ev96).1.map RunSummary.total_iterations = some 2) ∧
    (((runMain RUBRIC 96 3 ev96).1.map fun s => s.iterations.length) =
      some 3) ∧
    (runMain RUBRIC 96 3 ev96).2.2 = ExitKind.targetReached ∧
    (2 : Nat) ≠ 3 :=
  of_decide_eq_true (by with_unfolding_all rfl)

/-- Claim C8 (amended): when the completion call raises an ordinary
exception at pass `k`, no IterationRecord is appended for that attempt
(`k - 1` records), no further completion calls are made (exactly `k`
calls), the loop ends FAILED, and the accumulated history is written as
the summary.  A KeyboardInterrupt at pass `k` likewise appends no record
and makes no further calls, but it propagates out of `main`, so no summary
record is written at all.  (As stated — summary written in both cases —
the claim fails for the interrupt; see the counterexample.) -/
theorem completion_failure_behavior (rubric : List (String × Rat))
    (target : Rat) (htarget : 0 < target) (texts : Nat → List Char)
    (k maxIterations : Nat) (hk1 : 1 ≤ k) (hk2 : k ≤ maxIterations)
    (hbelow : ∀ j, 1 ≤ j → j < k →
      (extract_scores rubric (texts j)).2 < target) :
    ((runLoop rubric target (evFail texts k) maxIterations initState).2 =
        ExitKind.failed ∧
     (runLoop rubric target (evFail texts k) maxIterations
        initState).1.records.length = k - 1 ∧
     (runLoop rubric target (evFail texts k) maxIterations
        initState).1.calls = k ∧
     runMain rubric target maxIterations (evFail texts k) =
       (some (mkSummary target
          (runLoop rubric target (evFail texts k) maxIterations initState).1),
        (runLoop rubric target (evFail texts k) maxIterations initState).1,
        (runLoop rubric target (evFail texts k) maxIterations initState).2)) ∧
    ((runLoop rubric target (evInterrupt texts k) maxIterations initState).2 =
        ExitKind.aborted ∧
     (runLoop rubric target (evInterrupt texts k) maxIterations
        initState).1.records.length = k - 1 ∧
     (runLoop rubric target (evInterrupt texts k) maxIterations
        initState).1.calls = k ∧
     (runMain rubric target maxIterations (evInterrupt texts k)).1 = none) := by
  constructor
  · obtain ⟨s1, m, ha, hb, hc, hd, he, hf⟩ :=
      runLoop_reach_init rubric target (evFail texts k) texts k maxIterations
        htarget hk1 hk2
        (fun j hj1 hj2 => ⟨by simp [evFail, show j ≠ k by omega], hbelow j hj1 hj2⟩)
    have hev : evFail texts k s1.iteration = PassEvent.failure := by
      rw [hb]; simp [evFail]
    have hL : runLoop rubric target (evFail texts k) maxIterations initState =
        (⟨s1.iteration, s1.overall, s1.records, s1.written, s1.calls + 1⟩,
         ExitKind.failed) := by
      rw [ha, runLoop_step_failure hc hev]
    rw [hL]
    refine ⟨rfl, by simpa using hd, by simp [hf]; omega, ?_⟩
    rw [← hL]
    apply runMain_not_aborted
    rw [hL]
    simp
  · obtain ⟨s1, m, ha, hb, hc, hd, he, hf⟩ :=
      runLoop_reach_init rubric target (evInterrupt texts k) texts k
        maxIterations htarget hk1 hk2
        (fun j hj1 hj2 =>
          ⟨by simp [evInterrupt, show j ≠ k by omega], hbelow j hj1 hj2⟩)
    have hev : evInterrupt texts k s1.iteration = PassEvent.interrupt := by
      rw [hb]; simp [evInterrupt]
    have hL : runLoop rubric target (evInterrupt texts k) maxIterations
        initState =
        (⟨s1.iteration, s1.overall, s1.records, s1.written, s1.calls + 1⟩,
         ExitKind.aborted) := by
      rw [ha, runLoop_step_interrupt hc hev]
    rw [hL]
    refine ⟨rfl, by simpa using hd, by simp [hf]; omega, ?_⟩
    have := runMain_aborted rubric target maxIterations (evInterrupt texts k)
      (by rw [hL])
    rw [this]

/-- Witness for the amended C8: failing completion at pass 2 of the
[40, ...] scenario leaves one record and two calls; an interrupt there
leaves no summary. -/
theorem completion_failure_behavior_witness :
    (runLoop RUBRIC 96 (evFail texts96 2) 3 initState).1.records.length = 1 ∧
    (runMain RUBRIC 96 3 (evInterrupt texts96 2)).1 = none := by
  have h := completion_failure_behavior RUBRIC 96 (by decide) texts96 2 3
    (by omega) (by omega)
    (fun j h1 h2 => by
      have hj : j = 1 := by omega
      subst hj
      exact of_decide_eq_true (by with_unfolding_all rfl))
  exact ⟨h.1.2.1, h.2.2.2.2⟩

/-- Claim C8 counterexample: a KeyboardInterrupt during pass 1's completion
call aborts the run before the summary write, so no summary record at all
is produced — the accumulated (empty) history is not written, contrary to
the claim. -/
theorem interrupt_no_summary :
    (runMain RUBRIC 96 15 (evInterrupt texts96 1)).1 = none ∧
    (runMain RUBRIC 96 15 (evInterrupt texts96 1)).2.2 = ExitKind.aborted := by
  decide

/-- Claim C10: if writing iteration `k`'s per-iteration file raises after a
successful completion and extraction, the loop stops (FAILED), but the
record for pass `k` was appended before the write, so the summary still
holds `k` records and contains a record whose iteration number is not among
the successfully written iteration files. -/
theorem write_failure_record_kept (rubric : List (String × Rat))
    (target : Rat) (htarget : 0 < target) (texts : Nat → List Char)
    (failText : List Char) (k maxIterations : Nat)
    (hk1 : 1 ≤ k) (hk2 : k ≤ maxIterations)
    (hbelow : ∀ j, 1 ≤ j → j < k →
      (extract_scores rubric (texts j)).2 < target) :
    (runLoop rubric target (evWriteFail texts failText k) maxIterations
        initState).2 = ExitKind.failed ∧
    (runLoop rubric target (evWriteFail texts failText k) maxIterations
        initState).1.records.length = k ∧
    (∃ r ∈ (runLoop rubric target (evWriteFail texts failText k)
        maxIterations initState).1.records,
      r.iteration = k ∧
        r.iteration ∉ (runLoop rubric target (evWriteFail texts failText k)
          maxIterations initState).1.written) ∧
    runMain rubric target maxIterations (evWriteFail texts failText k) =
      (some (mkSummary target
        (runLoop rubric target (evWriteFail texts failText k) maxIterations
          initState).1),
       (runLoop rubric target (evWriteFail texts failText k) maxIterations
          initState).1,
       (runLoop rubric target (evWriteFail texts failText k) maxIterations
          initState).2) := by
  obtain ⟨s1, m, ha, hb, hc, hd, he, hf⟩ :=
    runLoop_reach_init rubric target (evWriteFail texts failText k) texts k
      maxIterations htarget hk1 hk2
      (fun j hj1 hj2 =>
        ⟨by simp [evWriteFail, show j ≠ k by omega], hbelow j hj1 hj2⟩)
  have hev : evWriteFail texts failText k s1.iteration =
      PassEvent.reply failText false := by
    rw [hb]; simp [evWriteFail]
  have hL : runLoop rubric target (evWriteFail texts failText k)
      maxIterations initState =
      (⟨s1.iteration, (extract_scores rubric failText).2,
        s1.records ++ [⟨s1.iteration, failText,
          (extract_scores rubric failText).1,
          (extract_scores rubric failText).2⟩],
        s1.written, s1.calls + 1⟩, ExitKind.failed) := by
    rw [ha, runLoop_step_reply_writeFail hc hev]
  rw [hL]
  refine ⟨rfl, by simp [hd]; omega, ?_, ?_⟩
  · refine ⟨⟨s1.iteration, failText, (extract_scores rubric failText).1,
      (extract_scores rubric failText).2⟩, ?_, hb, ?_⟩
    · simp
    · simp only [he, hb]
      intro hmem
      rw [List.mem_range'_1] at hmem
      omega
  · rw [← hL]
    apply runMain_not_aborted
    rw [hL]
    simp

/-- Witness for C10: write failure at pass 2 of the [40, ...] scenario:
the loop fails with 2 records and the record for pass 2 has no written
file. -/
theorem write_failure_record_kept_witness :
    (runLoop RUBRIC 96 (evWriteFail texts96 (strL "no score") 2) 3
        initState).1.records.length = 2 ∧
    (runLoop RUBRIC 96 (evWriteFail texts96 (strL "no score") 2) 3
        initState).2 = ExitKind.failed := by
  have h := write_failure_record_kept RUBRIC 96 (by decide) texts96
    (strL "no score") 2 3 (by omega) (by omega)
    (fun j h1 h2 => by
      have hj : j = 1 := by omega
      subst hj
      exact of_decide_eq_true (by with_unfolding_all rfl))
  exact ⟨h.2.1, h.1⟩

/-! ### Decimal numerals and the canonical well-formed scores block -/

theorem digitChar_mem {d : Nat} (hd : d < 10) : digitChar d ∈ digitList := by
  interval_cases d <;> decide

theorem digitVal_digitChar {d : Nat} (hd : d < 10) :
    digitVal (digitChar d) = d := by
  interval_cases d <;> decide

theorem natCharsAux_spec : ∀ (fuel n : Nat), n < fuel → ∀ (acc : List Char),
    ∃ ds : List Char, natCharsAux fuel n acc = ds ++ acc ∧ ds ≠ [] ∧
      (∀ c ∈ ds, c ∈ digitList) ∧
      ∀ a : Nat, ds.foldl (fun x c => 10 * x + digitVal c) a =
        a * 10 ^ ds.length + n := by
  intro fuel
  induction fuel with
  | zero => intro n hn; omega
  | succ fuel ih =>
      intro n hn acc
      by_cases h10 : n < 10
      · refine ⟨[digitChar n], by simp [natCharsAux, h10], by simp, ?_, ?_⟩
        · intro c hc
          rw [List.mem_singleton.mp hc]
          exact digitChar_mem h10
        · intro a
          simp [List.foldl, digitVal_digitChar h10]
          ring
      · have hdiv : n / 10 < fuel := by omega
        obtain ⟨ds, hds, hne, hmem, hval⟩ :=
          ih (n / 10) hdiv (digitChar (n % 10) :: acc)
        refine ⟨ds ++ [digitChar (n % 10)], ?_, by simp, ?_, ?_⟩
        · rw [natCharsAux, if_neg h10, hds]
          simp
        · intro c hc
          rcases List.mem_append.mp hc with h | h
          · exact hmem c h
          · rw [List.mem_singleton.mp h]
            exact digitChar_mem (by omega)
        · intro a
          rw [List.foldl_append]
          simp only [List.foldl, hval a]
          rw [digitVal_digitChar (by omega)]
          simp only [List.length_append, List.length_cons, List.length_nil]
          have h1 : 10 * (a * 10 ^ ds.length + n / 10) + n % 10 =
              a * (10 ^ ds.length * 10) + (10 * (n / 10) + n % 10) := by ring
          have hnm : 10 * (n / 10) + n % 10 = n := by omega
          rw [h1, hnm, ← pow_succ]

theorem natChars_spec (n : Nat) :
    natChars n ≠ [] ∧ (∀ c ∈ natChars n, c ∈ digitList) ∧
      (natChars n).foldl (fun x c => 10 * x + digitVal c) 0 = n := by
  obtain ⟨ds, hds, hne, hmem, hval⟩ := natCharsAux_spec (n + 1) n (by omega) []
  rw [List.append_nil] at hds
  rw [natChars, hds]
  exact ⟨hne, hmem, by rw [hval 0]; omega⟩

theorem natChars_ne_nil (n : Nat) : natChars n ≠ [] :=
  (natChars_spec n).1

theorem natChars_mem {n : Nat} {c : Char} (h : c ∈ natChars n) :
    c ∈ digitList :=
  (natChars_spec n).2.1 c h

theorem natChars_foldl (n : Nat) :
    (natChars n).foldl (fun x c => 10 * x + digitVal c) 0 = n :=
  (natChars_spec n).2.2

theorem digitList_isDigit : ∀ c ∈ digitList, isDigit c = true := by decide

theorem digitList_not_ws : ∀ c ∈ digitList, isWs c = false := by decide

theorem digitList_ne_dot : ∀ c ∈ digitList, c ≠ '.' := by decide

theorem digitList_lowerChar : ∀ c ∈ digitList, lowerChar c = c := by decide

theorem lowerEq_natChars_false {k : Char} (hk : lowerChar k ∉ digitList)
    {n : Nat} : ∀ c ∈ natChars n, lowerEq k c = false := by
  intro c hc
  have hc' := natChars_mem hc
  have hlc : lowerChar c = c := digitList_lowerChar c hc'
  rw [lowerEq, hlc]
  exact beq_eq_false_iff_ne.mpr fun he => hk (he ▸ hc')

theorem takeWhile_append_eq {f : Char → Bool} :
    ∀ (p s : List Char), (∀ c ∈ p, f c = true) →
      (∀ c cs, s = c :: cs → f c = false) →
      (p ++ s).takeWhile f = p := by
  intro p
  induction p with
  | nil =>
      intro s _ hs
      match s with
      | [] => rfl
      | c :: cs => simp [List.takeWhile, hs c cs rfl]
  | cons c cs ih =>
      intro s hp hs
      simp only [List.cons_append, List.takeWhile_cons, hp c (by simp), if_true]
      exact congrArg _ (ih s (fun x hx => hp x (by simp [hx])) hs)

theorem dropWhile_eq_self_of_head {f : Char → Bool} {s : List Char}
    (hs : ∀ c cs, s = c :: cs → f c = false) : s.dropWhile f = s := by
  match s with
  | [] => rfl
  | c :: cs => simp [List.dropWhile, hs c cs rfl]

theorem natChars_head_not {n : Nat} : ∀ c cs, natChars n = c :: cs →
    isDigit c = true ∧ isWs c = false ∧ c ≠ '.' := by
  intro c cs h
  have hc : c ∈ natChars n := by rw [h]; simp
  have hc' := natChars_mem hc
  exact ⟨digitList_isDigit c hc', digitList_not_ws c hc', digitList_ne_dot c hc'⟩

theorem parseNum_digits {c : Char} {cs rest : List Char}
    (hds : ∀ x ∈ c :: cs, isDigit x = true)
    (hrest : ∀ x xs, rest = x :: xs → isDigit x = false ∧ x ≠ '.') :
    parseNum ((c :: cs) ++ rest) =
      some ((((c :: cs).foldl (fun a c => 10 * a + digitVal c) 0 : Nat) : Rat),
            rest) := by
  have h1 : ((c :: cs) ++ rest).takeWhile isDigit = c :: cs :=
    takeWhile_append_eq _ _ hds (fun x xs h => (hrest x xs h).1)
  rw [parseNum.eq_def, h1]
  simp only []
  rw [List.drop_left]
  cases rest with
  | nil => simp
  | cons cx csx =>
      have h := hrest cx csx rfl
      simp [h.2]

theorem parseNum_natChars (n : Nat) (rest : List Char)
    (hrest : ∀ c cs, rest = c :: cs → isDigit c = false ∧ c ≠ '.') :
    parseNum (natChars n ++ rest) = some ((n : Rat), rest) := by
  obtain ⟨c, cs, hcc⟩ := List.exists_cons_of_ne_nil (natChars_ne_nil n)
  have hds : ∀ x ∈ c :: cs, isDigit x = true := by
    intro x hx
    exact digitList_isDigit x (natChars_mem (hcc ▸ hx))
  have hfold : (c :: cs).foldl (fun x c => 10 * x + digitVal c) 0 = n := by
    rw [← hcc]; exact natChars_foldl n
  rw [hcc, parseNum_digits hds hrest, hfold]

theorem matchLit_append_self : ∀ (k s : List Char), matchLit k (k ++ s) = some s := by
  intro k
  induction k with
  | nil => intro s; rfl
  | cons c cs ih =>
      intro s
      simp only [List.cons_append, matchLit, lowerEq, beq_self_eq_true, if_true]
      exact ih s

theorem matchLit_cons_ne {kc c : Char} {ks cs : List Char}
    (h : lowerEq kc c = false) : matchLit (kc :: ks) (c :: cs) = none := by
  simp [matchLit, h]

theorem searchAt_here {test : List Char → Option Rat} {s : List Char} {v : Rat}
    (h : test s = some v) : searchAt test s = some v := by
  match s with
  | [] => simpa [searchAt] using h
  | c :: cs => simp [searchAt, h]

theorem searchP1_cons_of_ne {kc c : Char} {ks cs : List Char}
    (h : lowerEq kc c = false) :
    searchP1 (kc :: ks) (c :: cs) = searchP1 (kc :: ks) cs := by
  simp [searchP1, searchAt, matchLit_cons_ne h]

theorem searchP1_append_of_forall {kc : Char} {ks : List Char}
    {p s : List Char} (hp : ∀ c ∈ p, lowerEq kc c = false) :
    searchP1 (kc :: ks) (p ++ s) = searchP1 (kc :: ks) s := by
  induction p with
  | nil => rfl
  | cons c cs ih =>
      rw [List.cons_append, searchP1_cons_of_ne (hp c (by simp))]
      exact ih fun x hx => hp x (by simp [hx])

theorem sepColonNum_colon_space {x : List Char} {v : Rat} {r : List Char}
    (hx : parseNum x = some (v, r))
    (hxw : ∀ c cs, x = c :: cs → isWs c = false) :
    sepColonNum (':' :: ' ' :: x) = some v := by
  have h1 : (':' :: ' ' :: x).dropWhile isWs = ':' :: ' ' :: x := by
    simp [List.dropWhile, isWs]
  have h2 : (' ' :: x).dropWhile isWs = x.dropWhile isWs := by
    simp [List.dropWhile, isWs]
  rw [sepColonNum.eq_def]
  simp only [h1, h2, dropWhile_eq_self_of_head hxw, hx, Option.map_some']

theorem searchP1_key_at {k rest : List Char} {v : Rat}
    (hsep : sepColonNum rest = some v) :
    searchP1 k (k ++ rest) = some v :=
  searchAt_here (by rw [matchLit_append_self]; exact hsep)

theorem termAt_cons_false {c : Char} {cs : List Char}
    (h1 : lowerEq 'W' c = false) (h2 : lowerEq 'O' c = false)
    (h3 : lowerEq 'T' c = false) : termAt (c :: cs) = false := by
  have e1 : strL "WEIGHTED TOTAL" = 'W' :: strL "EIGHTED TOTAL" := by decide
  have e2 : strL "OVERALL" = 'O' :: strL "VERALL" := by decide
  have e3 : strL "TOTAL" = 'T' :: strL "OTAL" := by decide
  simp [termAt, e1, e2, e3, matchLit_cons_ne h1, matchLit_cons_ne h2,
    matchLit_cons_ne h3]

theorem takeBody_append {p s : List Char} (hs : s ≠ [])
    (hp : ∀ c ∈ p, lowerEq 'W' c = false ∧ lowerEq 'O' c = false ∧
      lowerEq 'T' c = false) :
    takeBody (p ++ s) = p ++ takeBody s := by
  induction p with
  | nil => rfl
  | cons c cs ih =>
      have h := hp c (by simp)
      simp only [List.cons_append, takeBody]
      rw [if_neg (by simp [termAt_cons_false h.1 h.2.1 h.2.2]),
        if_neg (fun hand => hs (List.append_eq_nil.mp hand.2).2)]
      exact congrArg _ (ih fun x hx => hp x (by simp [hx]))

theorem takeBody_weighted (s : List Char) :
    takeBody (strL "WEIGHTED TOTAL" ++ s) = [] := by
  have e1 : strL "WEIGHTED TOTAL" = 'W' :: strL "EIGHTED TOTAL" := by decide
  have hterm : termAt ('W' :: (strL "EIGHTED TOTAL" ++ s)) = true := by
    have hm : matchLit (strL "WEIGHTED TOTAL")
        ('W' :: (strL "EIGHTED TOTAL" ++ s)) = some s := by
      rw [show ('W' :: (strL "EIGHTED TOTAL" ++ s)) =
        strL "WEIGHTED TOTAL" ++ s by rw [e1]; rfl]
      exact matchLit_append_self _ _
    simp [termAt, hm]
  rw [e1, List.cons_append]
  simp [takeBody, hterm]

theorem takeBody_wfbTail (a b t : Nat) :
    takeBody (wfbTail a b t) =
      strL "A: " ++ (natChars a ++ (strL "\nB: " ++ (natChars b ++ ['\n']))) := by
  have hC : strL "\nWEIGHTED TOTAL: " =
      ['\n'] ++ (strL "WEIGHTED TOTAL" ++ strL ": ") := by decide
  have hsplit : wfbTail a b t =
      (strL "A: " ++ (natChars a ++ (strL "\nB: " ++ (natChars b ++ ['\n'])))) ++
        (strL "WEIGHTED TOTAL" ++ (strL ": " ++ natChars t)) := by
    simp [wfbTail, hC, List.append_assoc]
  have hp : ∀ c ∈ strL "A: " ++
      (natChars a ++ (strL "\nB: " ++ (natChars b ++ ['\n']))),
      lowerEq 'W' c = false ∧ lowerEq 'O' c = false ∧ lowerEq 'T' c = false := by
    intro c hc
    rcases List.mem_append.mp hc with h | h
    · exact (by decide : ∀ c ∈ strL "A: ", lowerEq 'W' c = false ∧
        lowerEq 'O' c = false ∧ lowerEq 'T' c = false) c h
    rcases List.mem_append.mp h with h | h
    · exact ⟨lowerEq_natChars_false (by decide) c h,
        lowerEq_natChars_false (by decide) c h,
        lowerEq_natChars_false (by decide) c h⟩
    rcases List.mem_append.mp h with h | h
    · exact (by decide : ∀ c ∈ strL "\nB: ", lowerEq 'W' c = false ∧
        lowerEq 'O' c = false ∧ lowerEq 'T' c = false) c h
    rcases List.mem_append.mp h with h | h
    · exact ⟨lowerEq_natChars_false (by decide) c h,
        lowerEq_natChars_false (by decide) c h,
        lowerEq_natChars_false (by decide) c h⟩
    · exact (by decide : ∀ c ∈ (['\n'] : List Char), lowerEq 'W' c = false ∧
        lowerEq 'O' c = false ∧ lowerEq 'T' c = false) c h
  rw [hsplit,
    takeBody_append (fun h => absurd (List.append_eq_nil.mp h).1 (by decide)) hp,
    takeBody_weighted, List.append_nil]

theorem firstInRange_head {v : Rat} {rest : List (Option Rat)}
    (h1 : 0 ≤ v) (h2 : v ≤ 100) :
    firstInRange (some v :: rest) = some v := by
  simp [firstInRange, h1, h2]

theorem extractCategory_of_searchP1 {body : List Char} {key : String} {v : Rat}
    (h : searchP1 key.toList body = some v) (h1 : 0 ≤ v) (h2 : v ≤ 100) :
    extractCategory body key = some v := by
  obtain ⟨rest, hre⟩ : ∃ rest, categoryCombos key.toList body =
      searchP1 key.toList body :: rest := ⟨_, rfl⟩
  unfold extractCategory
  rw [hre, h, firstInRange_head h1 h2]

theorem extractCategory_wfb_A (a b t : Nat) (ha : a ≤ 100) :
    extractCategory (takeBody (wfbTail a b t)) "A" = some (a : Rat) := by
  rw [takeBody_wfbTail]
  have hrest : ∀ c cs, strL "\nB: " ++ (natChars b ++ ['\n']) = c :: cs →
      isDigit c = false ∧ c ≠ '.' := by
    intro c cs h
    rw [show strL "\nB: " ++ (natChars b ++ ['\n']) =
      '\n' :: (strL "B: " ++ (natChars b ++ ['\n'])) from rfl] at h
    injection h with h1 _
    rw [← h1]
    decide
  have hws : ∀ c cs,
      natChars a ++ (strL "\nB: " ++ (natChars b ++ ['\n'])) = c :: cs →
      isWs c = false := by
    intro c cs h
    obtain ⟨c0, cs0, hcc⟩ := List.exists_cons_of_ne_nil (natChars_ne_nil a)
    rw [hcc, List.cons_append] at h
    injection h with h1 _
    rw [← h1]
    exact (natChars_head_not c0 cs0 hcc).2.1
  have hsep : sepColonNum (strL ": " ++
      (natChars a ++ (strL "\nB: " ++ (natChars b ++ ['\n'])))) =
      some (a : Rat) := by
    rw [show strL ": " ++ (natChars a ++ (strL "\nB: " ++ (natChars b ++ ['\n']))) =
      ':' :: ' ' :: (natChars a ++ (strL "\nB: " ++ (natChars b ++ ['\n'])))
      from rfl]
    exact sepColonNum_colon_space (parseNum_natChars a _ hrest) hws
  have hsplitA : strL "A: " ++
      (natChars a ++ (strL "\nB: " ++ (natChars b ++ ['\n']))) =
      "A".toList ++ (strL ": " ++
        (natChars a ++ (strL "\nB: " ++ (natChars b ++ ['\n'])))) := by
    simp [show strL "A: " = "A".toList ++ strL ": " from by decide,
      List.append_assoc]
  rw [hsplitA]
  exact extractCategory_of_searchP1 (searchP1_key_at hsep) (Nat.cast_nonneg a)
    (by exact_mod_cast ha)

theorem extractCategory_wfb_B (a b t : Nat) (hb : b ≤ 100) :
    extractCategory (takeBody (wfbTail a b t)) "B" = some (b : Rat) := by
  rw [takeBody_wfbTail]
  have hrest : ∀ c cs, (['\n'] : List Char) = c :: cs →
      isDigit c = false ∧ c ≠ '.' := by
    intro c cs h
    injection h with h1 _
    rw [← h1]
    decide
  have hws : ∀ c cs, natChars b ++ ['\n'] = c :: cs → isWs c = false := by
    intro c cs h
    obtain ⟨c0, cs0, hcc⟩ := List.exists_cons_of_ne_nil (natChars_ne_nil b)
    rw [hcc, List.cons_append] at h
    injection h with h1 _
    rw [← h1]
    exact (natChars_head_not c0 cs0 hcc).2.1
  have hsep : sepColonNum (strL ": " ++ (natChars b ++ ['\n'])) =
      some (b : Rat) := by
    rw [show strL ": " ++ (natChars b ++ ['\n']) =
      ':' :: ' ' :: (natChars b ++ ['\n']) from rfl]
    exact sepColonNum_colon_space (parseNum_natChars b _ hrest) hws
  have hp : ∀ c ∈ strL "A: " ++ (natChars a ++ ['\n']),
      lowerEq 'B' c = false := by
    intro c hc
    rcases List.mem_append.mp hc with h | h
    · exact (by decide : ∀ c ∈ strL "A: ", lowerEq 'B' c = false) c h
    rcases List.mem_append.mp h with h | h
    · exact lowerEq_natChars_false (by decide) c h
    · exact (by decide : ∀ c ∈ (['\n'] : List Char), lowerEq 'B' c = false) c h
  have hsplitB : strL "A: " ++
      (natChars a ++ (strL "\nB: " ++ (natChars b ++ ['\n']))) =
      (strL "A: " ++ (natChars a ++ ['\n'])) ++
        ("B".toList ++ (strL ": " ++ (natChars b ++ ['\n']))) := by
    simp [show strL "\nB: " = ['\n'] ++ ("B".toList ++ strL ": ") from by decide,
      List.append_assoc]
  have hsearch : searchP1 "B".toList (strL "A: " ++
      (natChars a ++ (strL "\nB: " ++ (natChars b ++ ['\n'])))) =
      some (b : Rat) := by
    rw [hsplitB, show ("B".toList : List Char) = 'B' :: ([] : List Char)
      from by decide]
    rw [searchP1_append_of_forall hp]
    exact searchP1_key_at hsep
  exact extractCategory_of_searchP1 hsearch (Nat.cast_nonneg b)
    (by exact_mod_cast hb)

theorem totalScan_wfb (a b t : Nat) (ht : t ≤ 100) :
    totalScan totalKeys (wellFormedBlock a b t) 0 = (t : Rat) := by
  have hp : ∀ c ∈ strL "SCORES:\n" ++ (strL "A: " ++
      (natChars a ++ (strL "\nB: " ++ (natChars b ++ ['\n'])))),
      lowerEq 'W' c = false := by
    intro c hc
    rcases List.mem_append.mp hc with h | h
    · exact (by decide : ∀ c ∈ strL "SCORES:\n", lowerEq 'W' c = false) c h
    rcases List.mem_append.mp h with h | h
    · exact (by decide : ∀ c ∈ strL "A: ", lowerEq 'W' c = false) c h
    rcases List.mem_append.mp h with h | h
    · exact lowerEq_natChars_false (by decide) c h
    rcases List.mem_append.mp h with h | h
    · exact (by decide : ∀ c ∈ strL "\nB: ", lowerEq 'W' c = false) c h
    rcases List.mem_append.mp h with h | h
    · exact lowerEq_natChars_false (by decide) c h
    · exact (by decide : ∀ c ∈ (['\n'] : List Char), lowerEq 'W' c = false) c h
  have hparse : parseNum (natChars t ++ []) = some ((t : Rat), []) :=
    parseNum_natChars t [] (fun c cs h => by cases h)
  rw [List.append_nil] at hparse
  have hws : ∀ c cs, natChars t = c :: cs → isWs c = false :=
    fun c cs h => (natChars_head_not c cs h).2.1
  have hsep : sepColonNum (strL ": " ++ natChars t) = some (t : Rat) := by
    rw [show strL ": " ++ natChars t = ':' :: ' ' :: natChars t from rfl]
    exact sepColonNum_colon_space hparse hws
  have hsplitW : wellFormedBlock a b t =
      (strL "SCORES:\n" ++ (strL "A: " ++
        (natChars a ++ (strL "\nB: " ++ (natChars b ++ ['\n']))))) ++
        (strL "WEIGHTED TOTAL" ++ (strL ": " ++ natChars t)) := by
    simp [wellFormedBlock, wfbTail,
      show strL "\nWEIGHTED TOTAL: " =
        ['\n'] ++ (strL "WEIGHTED TOTAL" ++ strL ": ") from by decide,
      List.append_assoc]
  have hsearch : searchP1 (strL "WEIGHTED TOTAL") (wellFormedBlock a b t) =
      some (t : Rat) := by
    rw [hsplitW, show strL "WEIGHTED TOTAL" = 'W' :: strL "EIGHTED TOTAL"
      from by decide]
    rw [searchP1_append_of_forall hp]
    exact searchP1_key_at hsep
  have h5 : totalKeys = strL "WEIGHTED TOTAL" ::
      [strL "OVERALL SCORE", strL "TOTAL SCORE", strL "FINAL SCORE",
       strL "WEIGHTED"] := rfl
  rw [h5]
  simp only [totalScan, hsearch]
  rw [if_pos ⟨Nat.cast_nonneg t, by exact_mod_cast ht⟩]

/-- Claim C1 (amended): for every well-formed scores block over the A/B
rubric — `SCORES:` header, a `<category>: <value>` line for each category
with natural values in [0,100], and a `WEIGHTED TOTAL: <t>` line with `t`
in [0,100] and `t ≠ 0` — `extract_scores` returns exactly the given
category values and the given total `t`.  (As stated, with `t = 0`
admitted, the claim fails: the source treats a scanned total of 0 as
missing and recomputes; see the counterexample.) -/
theorem extract_scores_wellformed_block (a b t : Nat)
    (ha : a ≤ 100) (hb : b ≤ 100) (ht0 : 0 < t) (ht : t ≤ 100) :
    extract_scores rubricAB (wellFormedBlock a b t) =
      ([("A", (a : Rat)), ("B", (b : Rat))], (t : Rat)) := by
  have hbody : scoreText (wellFormedBlock a b t) = takeBody (wfbTail a b t) := rfl
  have h1 := @foundScores_cons_some ("A", mkRat 1 2) [("B", mkRat 1 2)]
    (takeBody (wfbTail a b t)) _ (extractCategory_wfb_A a b t ha)
  have h2 := @foundScores_cons_some ("B", mkRat 1 2) []
    (takeBody (wfbTail a b t)) _ (extractCategory_wfb_B a b t hb)
  have hfound : foundScores rubricAB (takeBody (wfbTail a b t)) =
      [("A", (a : Rat)), ("B", (b : Rat))] := by
    rw [show rubricAB = ("A", mkRat 1 2) :: [("B", mkRat 1 2)] from rfl, h1, h2]
    rfl
  rw [extract_scores_def, hbody, hfound, totalScan_wfb a b t ht]
  have hcond : ¬(((t : Rat) = 0 ∨
      ([("A", (a : Rat)), ("B", (b : Rat))]).length < rubricAB.length) ∧
      0 < weightedCalc rubricAB [("A", (a : Rat)), ("B", (b : Rat))]) := by
    rintro ⟨h | h, -⟩
    · rw [Nat.cast_eq_zero] at h
      omega
    · simp [rubricAB] at h
  rw [if_neg hcond]
  simp [rubricAB, List.lookup]

/-- Witness for the amended C1: the specification's example block
`SCORES:\nA: 80\nB: 70\nWEIGHTED TOTAL: 75` yields ({A:80, B:70}, 75). -/
theorem extract_scores_wellformed_block_witness :
    extract_scores rubricAB (wellFormedBlock 80 70 75) =
      ([("A", ((80 : Nat) : Rat)), ("B", ((70 : Nat) : Rat))],
       ((75 : Nat) : Rat)) :=
  extract_scores_wellformed_block 80 70 75 (by omega) (by omega) (by omega)
    (by omega)

/-- Claim C1 counterexample: the well-formed block with total line
`WEIGHTED TOTAL: 0` (t = 0 lies in [0,100]) does not return the given
total 0: the code recomputes and returns 75. -/
theorem wellformed_zero_total_not_returned :
    extract_scores rubricAB (wellFormedBlock 80 70 0) =
      ([("A", 80), ("B", 70)], 75) ∧ ((75 : Rat) ≠ 0) :=
  of_decide_eq_true (by with_unfolding_all rfl)

/-- Witness for the amended C9: in the [40, 70, 96] scenario the recorded
iteration count is one less than the number of records. -/
theorem summary_iteration_count_witness :
    (mkSummary 96 (runLoop RUBRIC 96
        (fun j => PassEvent.reply (texts96 j) true) 3
        initState).1).total_iterations + 1 =
      (runLoop RUBRIC 96 (fun j => PassEvent.reply (texts96 j) true) 3
        initState).1.records.length :=
  (summary_iteration_count RUBRIC 96 (by decide) texts96 3).2.2
    (of_decide_eq_true (by with_unfolding_all rfl))
